import Mathlib

/-!
Verification of the storage subsystem of the shortygopher URL shortener.

The Go sources are shallowly embedded:
* `internal/app/storage/urlstorage.go` — the in-memory concurrent store
  (`URLStorage`).  A Go `map[string]URLInfo` is modelled as an association
  list with unique keys; `m[k] = v` is `mapSet`, `m[k]` is `findInfo`.
  The `sync.RWMutex` serialises operations, so each exported method is
  modelled as a pure function on the store state.
* `internal/app/storage/database.go` — only `DeleteURLs` is needed; the
  SQL table is a list of rows and the single UPDATE is a map over rows.
* `internal/app/storage/osfile.go` — the batch file saver.  JSON values
  are an inductive `Json`; a JSON-lines file is a `List (Option Json)`
  (`none` is a line that is not valid JSON at all).  File-system effects
  of `saveToFile` are modelled as a trace of states over the two paths it
  touches (the target and `<target>.tmp`), including the `bufio.Writer`
  buffer, because the deferred `Flush` ordering is observable.
-/

namespace Shorty

/-- Model of `URLInfo` from urlstorage.go: original URL, owner and soft-delete flag. -/
structure URLInfo where
  OriginalURL : String
  UserID : String
  IsDeleted : Bool
deriving DecidableEq

/-- Model of `URLStorage` from urlstorage.go: the guarded `map[string]URLInfo`,
modelled as an association list with unique keys. -/
structure URLStorage where
  URLs : List (String × URLInfo)
deriving DecidableEq

/-- Go map read `m[k]`: the value at the (unique) occurrence of `k`. -/
def findInfo {α : Type} (m : List (String × α)) (k : String) : Option α :=
  match m with
  | [] => none
  | p :: rest => if p.1 = k then some p.2 else findInfo rest k

/-- Go map write `m[k] = v`: replace the existing entry in place, or append. -/
def mapSet {α : Type} (m : List (String × α)) (k : String) (v : α) :
    List (String × α) :=
  match m with
  | [] => [(k, v)]
  | p :: rest => if p.1 = k then (k, v) :: rest else p :: mapSet rest k v

/-- Model of `NewURLStorage`: an empty map. -/
def NewURLStorage : URLStorage := { URLs := [] }

/-- Model of `AddURL`: stores `URLInfo{OriginalURL, UserID}` (zero-valued
`IsDeleted = false`) under the short URL; always returns a nil error. -/
def AddURL (s : URLStorage) (shortURL originalURL userID : String) : URLStorage :=
  { URLs := mapSet s.URLs shortURL ⟨originalURL, userID, false⟩ }

/-- Model of `AddURLs`: the same write as `AddURL` for each entry of the batch. -/
def AddURLs (s : URLStorage) (urls : List (String × String)) (userID : String) :
    URLStorage :=
  { URLs := urls.foldl (fun m p => mapSet m p.1 ⟨p.2, userID, false⟩) s.URLs }

/-- Model of `GetURL`: `("", false, false)` when the key is absent, otherwise the
original URL, `true`, and the record's deletion flag. -/
def GetURL (s : URLStorage) (shortURL : String) : String × Bool × Bool :=
  match findInfo s.URLs shortURL with
  | none => ("", false, false)
  | some info => (info.OriginalURL, true, info.IsDeleted)

/-- Model of `GetURLsByUser`: every record whose `UserID` matches, taken into a fresh
map (the `sync.Pool` scratch map is an allocation detail with no effect on
the result).  No deletion filter appears in the source. -/
def GetURLsByUser (s : URLStorage) (userID : String) : List (String × String) :=
  (s.URLs.filter (fun p => decide (p.2.UserID = userID))).map
    (fun p => (p.1, p.2.OriginalURL))

/-- Model of `GetShortURLByOriginalURL`: linear scan, first record whose
`OriginalURL` matches; no deletion filter appears in the source. -/
def GetShortURLByOriginalURL (s : URLStorage) (originalURL : String) :
    String × Bool :=
  match s.URLs.find? (fun p => decide (p.2.OriginalURL = originalURL)) with
  | some p => (p.1, true)
  | none => ("", false)

/-- One iteration of the `DeleteURLs` loop: if the id exists and its owner
matches, write the record back with `IsDeleted = true`. -/
def deleteOne (m : List (String × URLInfo)) (shortURL userID : String) :
    List (String × URLInfo) :=
  match findInfo m shortURL with
  | some info =>
      if info.UserID = userID then
        mapSet m shortURL ⟨info.OriginalURL, info.UserID, true⟩
      else m
  | none => m

/-- Model of `DeleteURLs` from urlstorage.go: loop `deleteOne` over the ids and
return a nil error unconditionally. -/
def DeleteURLs (s : URLStorage) (shortURLs : List String) (userID : String) :
    URLStorage × Option String :=
  (⟨shortURLs.foldl (fun m sh => deleteOne m sh userID) s.URLs⟩, none)

/-- The `userSet[info.UserID] = true` accumulation in `GetStats`:
a `map[string]bool` used as a set, modelled as a duplicate-free list. -/
def insertUser (set : List String) (u : String) : List String :=
  if u ∈ set then set else set ++ [u]

/-- The user set built by the `GetStats` loop over all records. -/
def userSetFold (m : List (String × URLInfo)) : List String :=
  m.foldl (fun set p => insertUser set p.2.UserID) []

/-- Model of `GetStats`: `len(s.URLs)` and `len(userSet)`; the error is always nil. -/
def GetStats (s : URLStorage) : Nat × Nat :=
  (s.URLs.length, (userSetFold s.URLs).length)

theorem findInfo_mapSet_self {α : Type} (m : List (String × α)) (k : String)
    (v : α) : findInfo (mapSet m k v) k = some v := by
  induction m with
  | nil => simp [mapSet, findInfo]
  | cons p rest ih =>
      by_cases h : p.1 = k <;> simp [mapSet, findInfo, h, ih]

theorem findInfo_mapSet_ne {α : Type} (m : List (String × α)) (k k' : String)
    (v : α) (h : k ≠ k') :
    findInfo (mapSet m k v) k' = findInfo m k' := by
  induction m with
  | nil => simp [mapSet, findInfo, h]
  | cons p rest ih =>
      by_cases hp : p.1 = k
      · simp [mapSet, findInfo, hp, h]
      · simp only [mapSet, if_neg hp, findInfo]
        by_cases hp' : p.1 = k' <;> simp [hp', ih]

theorem insertUser_nodup (set : List String) (u : String)
    (h : set.Nodup) : (insertUser set u).Nodup := by
  unfold insertUser
  by_cases hu : u ∈ set
  · simpa [hu] using h
  · simp only [hu, if_false]
    simpa [List.nodup_append] using ⟨h, hu⟩

theorem insertUser_toFinset (set : List String) (u : String) :
    (insertUser set u).toFinset = insert u set.toFinset := by
  unfold insertUser
  by_cases hu : u ∈ set
  · simp [hu, Finset.insert_eq_self.mpr (List.mem_toFinset.mpr hu)]
  · ext x
    simp [hu, or_comm]

theorem userSetFold_aux (m : List (String × URLInfo)) (acc : List String)
    (hacc : acc.Nodup) :
    (m.foldl (fun set p => insertUser set p.2.UserID) acc).Nodup ∧
    (m.foldl (fun set p => insertUser set p.2.UserID) acc).toFinset =
      acc.toFinset ∪ (m.map (fun p => p.2.UserID)).toFinset := by
  induction m generalizing acc with
  | nil => simp [hacc]
  | cons p rest ih =>
      have h1 := ih (insertUser acc p.2.UserID) (insertUser_nodup _ _ hacc)
      refine ⟨h1.1, ?_⟩
      rw [List.foldl_cons, h1.2, insertUser_toFinset]
      ext x
      simp [or_assoc]

/-- C5: `GetStats` counts all records, tombstones included (the total is
the number of live records plus the number of soft-deleted ones), and its
second component is the number of distinct `UserID` values over all
records, live and deleted alike. -/
theorem GetStats_total_and_distinct_owners (s : URLStorage) :
    (GetStats s).1 = s.URLs.length ∧
    (GetStats s).1 =
      (s.URLs.filter (fun p => !p.2.IsDeleted)).length +
      (s.URLs.filter (fun p => p.2.IsDeleted)).length ∧
    (GetStats s).2 = (s.URLs.map (fun p => p.2.UserID)).toFinset.card := by
  refine ⟨rfl, ?_, ?_⟩
  · show s.URLs.length = _
    induction s.URLs with
    | nil => simp
    | cons p rest ih =>
        by_cases h : p.2.IsDeleted <;>
          simp [List.filter_cons, h, ih] <;> omega
  · have h := userSetFold_aux s.URLs [] (by simp)
    show (userSetFold s.URLs).length = _
    unfold userSetFold
    rw [← List.toFinset_card_of_nodup h.1, h.2]
    simp

/-- C4: `GetURL` is three-valued: it returns `("", false, false)` exactly
when no record with the short id exists; when a record exists it returns
its original URL, `true`, and its deletion flag; and immediately after
`AddURL` it returns the stored URL with `exists = true, deleted = false`. -/
theorem GetURL_three_valued (s : URLStorage) (shortURL : String) :
    (GetURL s shortURL = ("", false, false) ↔ findInfo s.URLs shortURL = none) ∧
    (∀ info, findInfo s.URLs shortURL = some info →
      GetURL s shortURL = (info.OriginalURL, true, info.IsDeleted)) ∧
    (∀ u o, GetURL (AddURL s shortURL u o) shortURL = (u, true, false)) := by
  refine ⟨?_, ?_, ?_⟩
  · unfold GetURL
    cases h : findInfo s.URLs shortURL with
    | none => simp
    | some info => simp
  · intro info h
    unfold GetURL
    rw [h]
  · intro u o
    unfold GetURL AddURL
    simp [findInfo_mapSet_self]

/-- C4 witness: on a concrete store, `GetURL` distinguishes a missing id
from a present one, and sees a fresh `AddURL` write. -/
theorem GetURL_three_valued_witness :
    GetURL (AddURL NewURLStorage "s1" "https://example.com" "u1") "s1" =
      ("https://example.com", true, false) :=
  (GetURL_three_valued NewURLStorage "s1").2.2 "https://example.com" "u1"

theorem mapSet_mem_self (m : List (String × URLInfo)) (k : String)
    (v : URLInfo) : (k, v) ∈ mapSet m k v := by
  induction m with
  | nil => simp [mapSet]
  | cons p rest ih =>
      by_cases h : p.1 = k <;> simp [mapSet, h, ih]

theorem mapSet_length_of_found (m : List (String × URLInfo)) (k : String)
    (v info : URLInfo) (h : findInfo m k = some info) :
    (mapSet m k v).length = m.length := by
  induction m with
  | nil => simp [findInfo] at h
  | cons p rest ih =>
      by_cases hp : p.1 = k
      · simp [mapSet, hp]
      · simp only [findInfo, if_neg hp] at h
        simp [mapSet, hp, ih h]

theorem mapSet_map_userID (m : List (String × URLInfo)) (k : String)
    (v info : URLInfo) (h : findInfo m k = some info)
    (hu : v.UserID = info.UserID) :
    (mapSet m k v).map (fun p => p.2.UserID) = m.map (fun p => p.2.UserID) := by
  induction m with
  | nil => simp [findInfo] at h
  | cons p rest ih =>
      by_cases hp : p.1 = k
      · simp only [findInfo, if_pos hp] at h
        injection h with h2
        subst h2
        simp [mapSet, hp, hu]
      · simp only [findInfo, if_neg hp] at h
        simp [mapSet, hp, ih h]

theorem deleteOne_eq_of_none (m : List (String × URLInfo)) (sh u : String)
    (hf : findInfo m sh = none) : deleteOne m sh u = m := by
  unfold deleteOne
  rw [hf]

theorem deleteOne_eq_of_owner (m : List (String × URLInfo)) (sh u : String)
    (i : URLInfo) (hf : findInfo m sh = some i) (hu : i.UserID = u) :
    deleteOne m sh u = mapSet m sh ⟨i.OriginalURL, i.UserID, true⟩ := by
  unfold deleteOne
  rw [hf]
  dsimp only
  rw [if_pos hu]

theorem deleteOne_eq_of_other (m : List (String × URLInfo)) (sh u : String)
    (i : URLInfo) (hf : findInfo m sh = some i) (hu : ¬ i.UserID = u) :
    deleteOne m sh u = m := by
  unfold deleteOne
  rw [hf]
  dsimp only
  rw [if_neg hu]

theorem deleteOne_length (m : List (String × URLInfo)) (sh u : String) :
    (deleteOne m sh u).length = m.length := by
  unfold deleteOne
  cases h : findInfo m sh with
  | none => rfl
  | some info =>
      by_cases hu : info.UserID = u
      · simp [hu, mapSet_length_of_found m sh _ info h]
      · simp [hu]

theorem deleteOne_map_userID (m : List (String × URLInfo)) (sh u : String) :
    (deleteOne m sh u).map (fun p => p.2.UserID) =
      m.map (fun p => p.2.UserID) := by
  cases h : findInfo m sh with
  | none => rw [deleteOne_eq_of_none m sh u h]
  | some info =>
      by_cases hu : info.UserID = u
      · rw [deleteOne_eq_of_owner m sh u info h hu]
        exact mapSet_map_userID m sh _ info h rfl
      · rw [deleteOne_eq_of_other m sh u info h hu]

theorem deleteURLs_foldl_length (shs : List String) (u : String)
    (m : List (String × URLInfo)) :
    (shs.foldl (fun m sh => deleteOne m sh u) m).length = m.length := by
  induction shs generalizing m with
  | nil => rfl
  | cons sh rest ih =>
      rw [List.foldl_cons, ih, deleteOne_length]

theorem deleteURLs_foldl_map_userID (shs : List String) (u : String)
    (m : List (String × URLInfo)) :
    (shs.foldl (fun m sh => deleteOne m sh u) m).map (fun p => p.2.UserID) =
      m.map (fun p => p.2.UserID) := by
  induction shs generalizing m with
  | nil => rfl
  | cons sh rest ih =>
      rw [List.foldl_cons, ih, deleteOne_map_userID]

theorem userSetFold_congr (m m' : List (String × URLInfo))
    (h : m.map (fun p => p.2.UserID) = m'.map (fun p => p.2.UserID)) :
    userSetFold m = userSetFold m' := by
  unfold userSetFold
  have key : ∀ (l l' : List (String × URLInfo)) (acc : List String),
      l.map (fun p => p.2.UserID) = l'.map (fun p => p.2.UserID) →
      l.foldl (fun set p => insertUser set p.2.UserID) acc =
        l'.foldl (fun set p => insertUser set p.2.UserID) acc := by
    intro l
    induction l with
    | nil => intro l' acc h; cases l' <;> simp_all
    | cons p rest ih =>
        intro l' acc h
        cases l' with
        | nil => simp at h
        | cons q rest2 =>
            simp only [List.map_cons, List.cons.injEq] at h
            simp only [List.foldl_cons, h.1]
            exact ih rest2 _ h.2
  exact key m m' [] h

/-- C1 counterexample: on the one-record store, after the owner soft-deletes
the id, the reverse lookup still returns that id and the owner listing still
contains it (the in-memory implementations do not filter tombstones), which
the claim denies. -/
theorem softDelete_still_visible_counterexample :
    GetShortURLByOriginalURL
      (DeleteURLs (AddURL NewURLStorage "s1" "https://example.com" "u1")
        ["s1"] "u1").1 "https://example.com" = ("s1", true) ∧
    ("s1", "https://example.com") ∈
      GetURLsByUser
        (DeleteURLs (AddURL NewURLStorage "s1" "https://example.com" "u1")
          ["s1"] "u1").1 "u1" ∧
    (GetURL (DeleteURLs (AddURL NewURLStorage "s1" "https://example.com" "u1")
        ["s1"] "u1").1 "s1").2.2 = true := by
  refine ⟨rfl, ?_, rfl⟩
  decide

/-- C1 amended: after `DeleteURLs [id] owner` on a record the caller owns,
`GetURL` answers `(originalURL, exists = true, deleted = true)`, the call
returns a nil error, and both components of `GetStats` are unchanged; but
the tombstone stays visible: the owner listing still contains the pair and
the reverse lookup still finds a record with that original URL. -/
theorem softDelete_tombstone_visibility (s : URLStorage) (id owner : String)
    (info : URLInfo) (h : findInfo s.URLs id = some info)
    (ho : info.UserID = owner) :
    GetURL (DeleteURLs s [id] owner).1 id = (info.OriginalURL, true, true) ∧
    (DeleteURLs s [id] owner).2 = none ∧
    GetStats (DeleteURLs s [id] owner).1 = GetStats s ∧
    (id, info.OriginalURL) ∈ GetURLsByUser (DeleteURLs s [id] owner).1 owner ∧
    (GetShortURLByOriginalURL (DeleteURLs s [id] owner).1
      info.OriginalURL).2 = true := by
  have hstep : (DeleteURLs s [id] owner).1.URLs =
      mapSet s.URLs id ⟨info.OriginalURL, info.UserID, true⟩ := by
    simp [DeleteURLs, deleteOne, h, ho]
  have hfind : findInfo (DeleteURLs s [id] owner).1.URLs id =
      some ⟨info.OriginalURL, info.UserID, true⟩ := by
    rw [hstep]; exact findInfo_mapSet_self _ _ _
  have hmem : (id, (⟨info.OriginalURL, info.UserID, true⟩ : URLInfo)) ∈
      (DeleteURLs s [id] owner).1.URLs := by
    rw [hstep]; exact mapSet_mem_self _ _ _
  refine ⟨?_, rfl, ?_, ?_, ?_⟩
  · unfold GetURL
    rw [hfind]
  · unfold GetStats
    have h1 : (DeleteURLs s [id] owner).1.URLs.length = s.URLs.length := by
      simpa [DeleteURLs] using deleteURLs_foldl_length [id] owner s.URLs
    have h2 := userSetFold_congr (DeleteURLs s [id] owner).1.URLs s.URLs
      (by simpa [DeleteURLs] using deleteURLs_foldl_map_userID [id] owner s.URLs)
    rw [h1, h2]
  · unfold GetURLsByUser
    refine List.mem_map.mpr ⟨(id, ⟨info.OriginalURL, info.UserID, true⟩), ?_, rfl⟩
    exact List.mem_filter.mpr ⟨hmem, by simp [ho]⟩
  · unfold GetShortURLByOriginalURL
    cases hf : (DeleteURLs s [id] owner).1.URLs.find?
        (fun p => decide (p.2.OriginalURL = info.OriginalURL)) with
    | none =>
        exact absurd (List.find?_eq_none.mp hf _ hmem) (by simp)
    | some p => rfl

/-- C1 amended witness: concrete instantiation on a one-record store. -/
theorem softDelete_tombstone_visibility_witness :
    GetURL (DeleteURLs (AddURL NewURLStorage "s1" "https://example.com" "u1")
        ["s1"] "u1").1 "s1" = ("https://example.com", true, true) :=
  (softDelete_tombstone_visibility
    (AddURL NewURLStorage "s1" "https://example.com" "u1") "s1" "u1"
    ⟨"https://example.com", "u1", false⟩ (by decide) rfl).1

/-- A row of the `urls` table created by database.go. -/
structure DBRow where
  url : String
  short_url : String
  user_id : String
  is_deleted : Bool
deriving DecidableEq

/-- Model of `DeleteURLs` from database.go:
`UPDATE urls SET is_deleted = TRUE WHERE short_url = ANY($1)`.
The `userID` argument is accepted but never used in the query, and the
call returns the `Exec` error (nil on success). -/
def dbDeleteURLs (table : List DBRow) (shortURLs : List String)
    (userID : String) : List DBRow × Option String :=
  (table.map (fun r =>
      if r.short_url ∈ shortURLs then
        { r with is_deleted := true }
      else r),
   none)

/-- C2: the relational backend's `DeleteURLs` marks a row deleted even when
the caller is not its owner (`u2` deletes `u1`'s record), while the
in-memory backend leaves the same record untouched — evaluated at the
failing input. -/
theorem dbDeleteURLs_ignores_owner :
    dbDeleteURLs [⟨"https://example.com", "s1", "u1", false⟩] ["s1"] "u2" =
      ([⟨"https://example.com", "s1", "u1", true⟩], none) ∧
    DeleteURLs { URLs := [("s1", ⟨"https://example.com", "u1", false⟩)] }
        ["s1"] "u2" =
      ({ URLs := [("s1", ⟨"https://example.com", "u1", false⟩)] }, none) := by
  constructor
  · decide
  · decide

/-- The operations of the storage contract, for temporal reasoning over
sequences of calls; the read-only calls leave the state unchanged. -/
inductive StoreOp where
  | add (shortURL originalURL userID : String)
  | addMany (urls : List (String × String)) (userID : String)
  | del (shortURLs : List String) (userID : String)
  | get (shortURL : String)
  | listByUser (userID : String)
  | reverse (originalURL : String)
  | stats
deriving DecidableEq

/-- State transition of one storage operation. -/
def stepOp (s : URLStorage) : StoreOp → URLStorage
  | .add sh o u => AddURL s sh o u
  | .addMany urls u => AddURLs s urls u
  | .del shs u => (DeleteURLs s shs u).1
  | .get _ => s
  | .listByUser _ => s
  | .reverse _ => s
  | .stats => s

/-- Run a sequence of operations from the empty store. -/
def runOps (ops : List StoreOp) : URLStorage := ops.foldl stepOp NewURLStorage

/-- Whether the operation is one of the insert/overwrite calls. -/
def StoreOp.isAdd : StoreOp → Bool
  | .add _ _ _ => true
  | .addMany _ _ => true
  | _ => false

theorem mapSet_presence (m : List (String × URLInfo)) (k k' : String)
    (v : URLInfo) (h : (findInfo m k' ).isSome = true) :
    (findInfo (mapSet m k v) k' ).isSome = true := by
  by_cases hk : k = k'
  · subst hk
    rw [findInfo_mapSet_self]
    rfl
  · rwa [findInfo_mapSet_ne m k k' v hk]

theorem addMany_presence (urls : List (String × String)) (u : String)
    (m : List (String × URLInfo)) (k : String)
    (h : (findInfo m k).isSome = true) :
    (findInfo (urls.foldl (fun m p => mapSet m p.1 ⟨p.2, u, false⟩) m) k).isSome
      = true := by
  induction urls generalizing m with
  | nil => exact h
  | cons p rest ih =>
      rw [List.foldl_cons]
      exact ih _ (mapSet_presence _ _ _ _ h)

theorem deleteOne_presence (m : List (String × URLInfo)) (sh u k : String)
    (h : (findInfo m k).isSome = true) :
    (findInfo (deleteOne m sh u) k).isSome = true := by
  unfold deleteOne
  cases hf : findInfo m sh with
  | none => exact h
  | some info =>
      by_cases hu : info.UserID = u
      · simpa [hu] using mapSet_presence m sh k _ h
      · simpa [hu] using h

theorem delMany_presence (shs : List String) (u : String)
    (m : List (String × URLInfo)) (k : String)
    (h : (findInfo m k).isSome = true) :
    (findInfo (shs.foldl (fun m sh => deleteOne m sh u) m) k).isSome = true := by
  induction shs generalizing m with
  | nil => exact h
  | cons sh rest ih =>
      rw [List.foldl_cons]
      exact ih _ (deleteOne_presence _ _ _ _ h)

theorem deleteOne_deleted_mono (m : List (String × URLInfo)) (sh u k : String)
    (info info' : URLInfo) (h : findInfo m k = some info)
    (h' : findInfo (deleteOne m sh u) k = some info')
    (hd : info.IsDeleted = true) : info'.IsDeleted = true := by
  cases hf : findInfo m sh with
  | none =>
      rw [deleteOne_eq_of_none m sh u hf, h] at h'
      cases h'
      exact hd
  | some i =>
      by_cases hu : i.UserID = u
      · rw [deleteOne_eq_of_owner m sh u i hf hu] at h'
        by_cases hk : sh = k
        · subst hk
          rw [findInfo_mapSet_self] at h'
          cases h'
          rfl
        · rw [findInfo_mapSet_ne m sh k _ hk, h] at h'
          cases h'
          exact hd
      · rw [deleteOne_eq_of_other m sh u i hf hu, h] at h'
        cases h'
        exact hd

theorem delMany_deleted_mono (shs : List String) (u : String)
    (m : List (String × URLInfo)) (k : String) (info info' : URLInfo)
    (h : findInfo m k = some info)
    (h' : findInfo (shs.foldl (fun m sh => deleteOne m sh u) m) k = some info')
    (hd : info.IsDeleted = true) : info'.IsDeleted = true := by
  induction shs generalizing m info with
  | nil =>
      rw [List.foldl_nil] at h'
      rw [h] at h'
      cases h'
      exact hd
  | cons sh rest ih =>
      rw [List.foldl_cons] at h'
      have hs : (findInfo (deleteOne m sh u) k).isSome = true :=
        deleteOne_presence m sh u k (by simp [h])
      cases hmid : findInfo (deleteOne m sh u) k with
      | none => rw [hmid] at hs; cases hs
      | some mid =>
          exact ih _ mid hmid h'
            (deleteOne_deleted_mono m sh u k info mid h hmid hd)

/-- C3 counterexample: `AddURL` on an already soft-deleted short id
overwrites the record and resets its deleted flag to `false`, so the flag
does transition from `true` back to `false` under a legal op sequence. -/
theorem deleted_flag_reset_counterexample :
    (GetURL (runOps [.add "s1" "https://a" "u1", .del ["s1"] "u1"]) "s1").2.2
      = true ∧
    (GetURL (runOps [.add "s1" "https://a" "u1", .del ["s1"] "u1",
        .add "s1" "https://b" "u2"]) "s1").2.2 = false := by
  constructor
  · decide
  · decide

/-- C3 amended: every operation keeps each present short id present (ids are
never removed), and every operation other than the overwriting inserts
`AddURL`/`AddURLs` keeps a true deleted flag true; an insert on an existing
id, however, replaces the record and resets the flag. -/
theorem store_monotonicity (s : URLStorage) (op : StoreOp) :
    (∀ k, (findInfo s.URLs k).isSome = true →
      (findInfo (stepOp s op).URLs k).isSome = true) ∧
    (∀ k info info', op.isAdd = false → findInfo s.URLs k = some info →
      findInfo (stepOp s op).URLs k = some info' →
      info.IsDeleted = true → info'.IsDeleted = true) := by
  constructor
  · intro k h
    cases op with
    | add sh o u => exact mapSet_presence _ _ _ _ h
    | addMany urls u => exact addMany_presence urls u _ k h
    | del shs u => exact delMany_presence shs u _ k h
    | get _ => exact h
    | listByUser _ => exact h
    | reverse _ => exact h
    | stats => exact h
  · intro k info info' hna h h' hd
    cases op with
    | add sh o u => cases hna
    | addMany urls u => cases hna
    | del shs u => exact delMany_deleted_mono shs u _ k info info' h h' hd
    | get _ => dsimp only [stepOp] at h'; rw [h] at h'; cases h'; exact hd
    | listByUser _ => dsimp only [stepOp] at h'; rw [h] at h'; cases h'; exact hd
    | reverse _ => dsimp only [stepOp] at h'; rw [h] at h'; cases h'; exact hd
    | stats => dsimp only [stepOp] at h'; rw [h] at h'; cases h'; exact hd

/-- C3 amended witness: concrete instantiation with a soft-deleted record
surviving a delete aimed at another id. -/
theorem store_monotonicity_witness :
    (findInfo (stepOp { URLs := [("s1", ⟨"https://a", "u1", true⟩)] }
      (.del ["s2"] "u1")).URLs "s1").isSome = true ∧
    (⟨"https://a", "u1", true⟩ : URLInfo).IsDeleted = true := by
  constructor
  · exact (store_monotonicity { URLs := [("s1", ⟨"https://a", "u1", true⟩)] }
      (.del ["s2"] "u1")).1 "s1" (by decide)
  · exact (store_monotonicity { URLs := [("s1", ⟨"https://a", "u1", true⟩)] }
      (.del ["s2"] "u1")).2 "s1" ⟨"https://a", "u1", true⟩
      ⟨"https://a", "u1", true⟩ (by decide) (by decide) (by decide) (by decide)

/-! ## Snapshot codec (osfile.go)

JSON values are embedded as an inductive type; `encoding/json` behaviour
for the `URLMapping` struct is modelled value-level: an absent field keeps
its zero value `""`, a present field of a non-string type is a decode
error, unknown fields are ignored, a later duplicate key overwrites an
earlier one, and decoding any non-object (including an array) into the
struct is an error.  A JSON-lines file is a `List (Option Json)`; `none`
stands for a line whose bytes are not valid JSON at all. -/

/-- A JSON value. -/
inductive Json where
  | null
  | bool (b : Bool)
  | num (n : Int)
  | str (s : String)
  | arr (elems : List Json)
  | obj (fields : List (String × Json))

/-- Model of `URLMapping` from osfile.go: the JSON-lines record shape. -/
structure URLMapping where
  UUID : String
  ShortURL : String
  OriginalURL : String
  UserID : String
deriving DecidableEq

/-- Object field lookup; a later duplicate key overwrites an earlier one,
as Go's decoder assigns fields in document order. -/
def jLookup (fields : List (String × Json)) (k : String) : Option Json :=
  fields.foldl (fun acc p => if p.1 = k then some p.2 else acc) none

/-- Decode one string-typed struct field: absent keeps the zero value `""`,
a non-string value is an error. -/
def strField (fields : List (String × Json)) (k : String) : Option String :=
  match jLookup fields k with
  | none => some ""
  | some (Json.str s) => some s
  | some _ => none

/-- Model of `json.Unmarshal` of one JSON value into `URLMapping`. -/
def decodeURLMapping : Json → Option URLMapping
  | Json.obj fields =>
      match strField fields "uuid", strField fields "short_url",
            strField fields "original_url", strField fields "user_id" with
      | some uu, some sh, some orig, some uid => some ⟨uu, sh, orig, uid⟩
      | _, _, _, _ => none
  | _ => none

/-- Model of `json.Marshal` of a `URLMapping` (as a JSON value). -/
def encodeURLMapping (m : URLMapping) : Json :=
  Json.obj [("uuid", Json.str m.UUID), ("short_url", Json.str m.ShortURL),
    ("original_url", Json.str m.OriginalURL), ("user_id", Json.str m.UserID)]

/-- Model of `LoadURLMappings` from osfile.go: scan the file line by line; a line
that fails to unmarshal is skipped (`continue`); each decoded mapping is
written into the result map. -/
def loadURLMappings (lines : List (Option Json)) : List (String × String) :=
  lines.foldl (fun m line =>
    match line with
    | none => m
    | some j =>
        match decodeURLMapping j with
        | none => m
        | some mp => mapSet m mp.ShortURL mp.OriginalURL) []

/-- Element-wise decoding of a JSON array into mapping structs; the first
element that fails to decode fails the whole slice, as in Go. -/
def decodeMappings : List Json → Option (List URLMapping)
  | [] => some []
  | j :: rest =>
      match decodeURLMapping j, decodeMappings rest with
      | some m, some ms => some (m :: ms)
      | _, _ => none

/-- Model of `json.Unmarshal` into `[]URLMapping`-shaped slice (filestorage.go's
first parse attempt): `null` gives a nil slice, an array decodes
element-wise and fails if any element fails, anything else is an error. -/
def decodeMappingArray : Json → Option (List URLMapping)
  | Json.null => some []
  | Json.arr elems => decodeMappings elems
  | _ => none

/-- Field-wise decoding of an object's values as strings, for the
`map[string]string` shape; a non-string value fails the whole object. -/
def decodeStrPairs : List (String × Json) → Option (List (String × String))
  | [] => some []
  | p :: rest =>
      match p.2, decodeStrPairs rest with
      | Json.str s, some ps => some ((p.1, s) :: ps)
      | _, _ => none

/-- Model of `json.Unmarshal` into `map[string]string` (filestorage.go's fallback
parse): every field value must be a string; later duplicates overwrite. -/
def decodeStringMap : Json → Option (List (String × String))
  | Json.null => some []
  | Json.obj fields =>
      match decodeStrPairs fields with
      | some pairs => some (pairs.foldl (fun m p => mapSet m p.1 p.2) [])
      | none => none
  | _ => none

/-- Model of `FileStorage.loadURLMappings` from filestorage.go: try the whole file
as a JSON array of mapping objects first; if that fails, try it as a
single JSON `map[string]string` object; otherwise error (`none`).  The
input is the whole file's parse (`none` when the bytes are not JSON). -/
def fsLoadURLMappings (file : Option Json) : Option (List (String × String)) :=
  match file with
  | none => none
  | some j =>
      match decodeMappingArray j with
      | some mappings =>
          some (mappings.foldl (fun m mp => mapSet m mp.ShortURL mp.OriginalURL) [])
      | none => decodeStringMap j

theorem decode_encodeURLMapping (m : URLMapping) :
    decodeURLMapping (encodeURLMapping m) = some m := rfl

theorem decodeMappings_encode (mappings : List URLMapping) :
    decodeMappings (mappings.map encodeURLMapping) = some mappings := by
  induction mappings with
  | nil => rfl
  | cons m rest ih =>
      simp [decodeMappings, decode_encodeURLMapping, ih]

theorem fsLoad_of_array (j : Json) (ms : List URLMapping)
    (h : decodeMappingArray j = some ms) :
    fsLoadURLMappings (some j) =
      some (ms.foldl (fun m mp => mapSet m mp.ShortURL mp.OriginalURL) []) := by
  unfold fsLoadURLMappings
  dsimp only
  rw [h]

/-- C6 counterexample: a file holding a single legacy JSON array of one
mapping object decodes to the empty map under `LoadURLMappings` (the array
line fails to unmarshal into `URLMapping` and is skipped), not to the map
of its entries as the claim states. -/
theorem loadURLMappings_array_counterexample :
    loadURLMappings
      [some (Json.arr
        [encodeURLMapping ⟨"x", "s1", "https://a", "system"⟩])] = [] ∧
    ([] : List (String × String)) ≠ [("s1", "https://a")] := by
  constructor
  · rfl
  · decide

/-- C6 amended: `LoadURLMappings` is line-oriented only: a non-JSON line
and a JSON-array line are both skipped without error, and a line holding a
mapping object adds its entry; the legacy whole-file array shape is instead
accepted by `FileStorage.loadURLMappings`, whose array attempt comes first
and decodes every element. -/
theorem loadURLMappings_line_semantics :
    (∀ lines, loadURLMappings (lines ++ [none]) = loadURLMappings lines) ∧
    (∀ lines ms, loadURLMappings (lines ++ [some (Json.arr ms)]) =
      loadURLMappings lines) ∧
    (∀ lines mp, loadURLMappings (lines ++ [some (encodeURLMapping mp)]) =
      mapSet (loadURLMappings lines) mp.ShortURL mp.OriginalURL) ∧
    (∀ mappings : List URLMapping,
      fsLoadURLMappings (some (Json.arr (mappings.map encodeURLMapping))) =
        some (mappings.foldl
          (fun m mp => mapSet m mp.ShortURL mp.OriginalURL) [])) := by
  refine ⟨?_, ?_, ?_, ?_⟩
  · intro lines
    rw [loadURLMappings, List.foldl_append]
    rfl
  · intro lines ms
    rw [loadURLMappings, List.foldl_append]
    rfl
  · intro lines mp
    rw [loadURLMappings, List.foldl_append]
    simp [decode_encodeURLMapping, loadURLMappings]
  · intro mappings
    exact fsLoad_of_array _ mappings (decodeMappings_encode mappings)

theorem findInfo_eq_none_iff {α : Type} (m : List (String × α)) (k : String) :
    findInfo m k = none ↔ k ∉ m.map Prod.fst := by
  induction m with
  | nil => simp [findInfo]
  | cons p rest ih =>
      simp only [findInfo, List.map_cons, List.mem_cons]
      by_cases h : p.1 = k
      · simp [h]
      · rw [if_neg h, ih]
        constructor
        · intro hnot hor
          cases hor with
          | inl he => exact h he.symm
          | inr hm => exact hnot hm
        · intro hnot hm
          exact hnot (Or.inr hm)

theorem mapSet_of_absent {α : Type} (m : List (String × α)) (k : String)
    (v : α) (h : findInfo m k = none) : mapSet m k v = m ++ [(k, v)] := by
  induction m with
  | nil => simp [mapSet]
  | cons p rest ih =>
      by_cases hp : p.1 = k
      · simp [findInfo, hp] at h
      · simp only [findInfo, if_neg hp] at h
        simp [mapSet, hp, ih h]

/-- The JSON lines written by `saveToFile`: one object per pending entry,
with a freshly generated uuid (`ug` indexed by position) and the `"system"`
owner tag. -/
def saveLines (pending : List (String × String)) (ug : Nat → String) :
    List (Option Json) :=
  pending.enum.map (fun ip =>
    some (encodeURLMapping ⟨ug ip.1, ip.2.1, ip.2.2, "system"⟩))

theorem saveLines_roundTrip_aux (pending : List (String × String))
    (ug : Nat → String) (n : Nat) (acc : List (String × String))
    (h : ((acc ++ pending).map Prod.fst).Nodup) :
    ((pending.enumFrom n).map (fun ip =>
        some (encodeURLMapping ⟨ug ip.1, ip.2.1, ip.2.2, "system"⟩))).foldl
      (fun m line =>
        match line with
        | none => m
        | some j =>
            match decodeURLMapping j with
            | none => m
            | some mp => mapSet m mp.ShortURL mp.OriginalURL) acc =
      acc ++ pending := by
  induction pending generalizing n acc with
  | nil => simp
  | cons p rest ih =>
      rw [List.enumFrom_cons, List.map_cons, List.foldl_cons]
      have habs : findInfo acc p.1 = none := by
        rw [findInfo_eq_none_iff]
        intro hmem
        have : ¬ ((acc ++ p :: rest).map Prod.fst).Nodup := by
          simp only [List.map_append, List.map_cons]
          intro hn
          exact (List.disjoint_of_nodup_append hn) hmem (by simp)
        exact this h
      have hmapset := mapSet_of_absent acc p.1 p.2 habs
      simp only [decode_encodeURLMapping, hmapset]
      have h2 : (((acc ++ [(p.1, p.2)]) ++ rest).map Prod.fst).Nodup := by
        simpa using h
      rw [ih (n + 1) (acc ++ [(p.1, p.2)]) h2]
      simp

/-- C7: snapshot round trip.  For any pending map (distinct short ids) and
any uuid generator, serializing with `saveToFile`'s per-line encoding and
decoding with `LoadURLMappings` returns exactly the original entries; the
synthetic uuid and the `"system"` owner tag are ignored by the decoder. -/
theorem snapshot_roundTrip (pending : List (String × String))
    (ug : Nat → String) (h : (pending.map Prod.fst).Nodup) :
    loadURLMappings (saveLines pending ug) = pending := by
  have := saveLines_roundTrip_aux pending ug 0 [] (by simpa using h)
  simpa [loadURLMappings, saveLines, List.enum] using this

/-- C7 witness: a concrete two-entry round trip. -/
theorem snapshot_roundTrip_witness :
    loadURLMappings
      (saveLines [("s1", "https://a"), ("s2", "https://b")]
        (fun n => toString n)) =
      [("s1", "https://a"), ("s2", "https://b")] :=
  snapshot_roundTrip [("s1", "https://a"), ("s2", "https://b")]
    (fun n => toString n) (by decide)

/-! ## Batch file saver (osfile.go)

The saver's global-singleton construction, and the file-system effects of
`saveToFile`/`forceSave`.  Only two paths are ever touched — the target
`b.filePath` and the temporary `b.filePath + ".tmp"` (always distinct from
the target, which never ends in a second `.tmp` of itself) — so the file
system is modelled as the contents at those two roles.  The
`bufio.Writer` buffer is modelled explicitly because the source flushes it
in a `defer`, after the `os.Rename` in the return expression has already
run; `os.Rename` moves the inode, so the deferred flush lands at the
target path. -/

/-- BatchFileSaver from osfile.go (the mutex guards it; `saveInterval` is
the 5 second tick). -/
structure BatchFileSaver where
  pendingURLs : List (String × String)
  filePath : String
  saveInterval : Nat
deriving DecidableEq

/-- GetBatchSaver: the package-level `globalSaver` with `sync.Once`.  The
construction runs only on the very first call of the process; every later
call returns the stored instance, whatever path is passed.  The state is
the `globalSaver` variable (`none` before the once fires). -/
def GetBatchSaver (globalSaver : Option BatchFileSaver) (filePath : String) :
    BatchFileSaver × Option BatchFileSaver :=
  match globalSaver with
  | none =>
      let s : BatchFileSaver := ⟨[], filePath, 5⟩
      (s, some s)
  | some s => (s, some s)

/-- A sequence of `GetBatchSaver` calls, collecting the returned savers. -/
def runGetBatchSaver (g : Option BatchFileSaver) (paths : List String) :
    List BatchFileSaver × Option BatchFileSaver :=
  match paths with
  | [] => ([], g)
  | p :: rest =>
      let r := GetBatchSaver g p
      let rs := runGetBatchSaver r.2 rest
      (r.1 :: rs.1, rs.2)

/-- C8 counterexample: after a first call with path `"a"`, a call with the
different path `"b"` returns the very same instance, whose target file
path is still `"a"`, not `"b"` — there is one saver per process, not one
per path. -/
theorem getBatchSaver_not_per_path :
    (GetBatchSaver (GetBatchSaver none "a").2 "b").1.filePath = "a" ∧
    (GetBatchSaver (GetBatchSaver none "a").2 "b").1 =
      (GetBatchSaver none "a").1 ∧
    "a" ≠ "b" := by
  refine ⟨rfl, rfl, by decide⟩

theorem runGetBatchSaver_after_once (s0 : BatchFileSaver)
    (paths : List String) :
    runGetBatchSaver (some s0) paths = (paths.map (fun _ => s0), some s0) := by
  induction paths with
  | nil => rfl
  | cons p rest ih =>
      simp [runGetBatchSaver, GetBatchSaver, ih]

/-- C8 amended: GetBatchSaver is a process-wide singleton.  The first call
of the process creates the one instance, with the first call's path as its
target; every call in the sequence — whatever path it passes — returns
that same instance, so at most one writer exists per process (hence also
at most one per target file path). -/
theorem getBatchSaver_process_singleton (p0 : String) (ps : List String) :
    (runGetBatchSaver none (p0 :: ps)).2 = some ⟨[], p0, 5⟩ ∧
    ∀ s, s ∈ (runGetBatchSaver none (p0 :: ps)).1 → s = ⟨[], p0, 5⟩ := by
  have hrun : runGetBatchSaver none (p0 :: ps) =
      ((⟨[], p0, 5⟩ : BatchFileSaver) :: ps.map (fun _ => ⟨[], p0, 5⟩),
        some ⟨[], p0, 5⟩) := by
    simp [runGetBatchSaver, GetBatchSaver,
      runGetBatchSaver_after_once ⟨[], p0, 5⟩ ps]
  constructor
  · rw [hrun]
  · intro s hs
    rw [hrun] at hs
    rcases List.mem_cons.mp hs with h | h
    · exact h
    · rcases List.mem_map.mp h with ⟨_, _, h2⟩
      exact h2.symm

/-- C8 amended witness: two calls with the two distinct paths. -/
theorem getBatchSaver_process_singleton_witness :
    (runGetBatchSaver none ["a", "b"]).2 = some ⟨[], "a", 5⟩ ∧
    (GetBatchSaver (GetBatchSaver none "a").2 "b").1 = ⟨[], "a", 5⟩ := by
  constructor
  · exact (getBatchSaver_process_singleton "a" ["b"]).1
  · exact (getBatchSaver_process_singleton "a" ["b"]).2
      (GetBatchSaver (GetBatchSaver none "a").2 "b").1 (by decide)

/-- One hexadecimal digit, lower case, as Go's encoder prints it. -/
def hexDigit (n : Nat) : String :=
  String.singleton (Char.ofNat (if n < 10 then 48 + n else 87 + n))

/-- Escaping of one character in a JSON string as Go's `encoding/json`
encoder emits it (HTML-safe mode, the default for `json.Marshal`). -/
def escapeChar (c : Char) : String :=
  if c = '"' then "\\\""
  else if c = '\\' then "\\\\"
  else if c = '\n' then "\\n"
  else if c = '\r' then "\\r"
  else if c = '\t' then "\\t"
  else if c = '<' then "\\u003c"
  else if c = '>' then "\\u003e"
  else if c = '&' then "\\u0026"
  else if c.toNat < 32 then
    "\\u00" ++ hexDigit (c.toNat / 16) ++ hexDigit (c.toNat % 16)
  else String.singleton c

/-- A quoted JSON string literal. -/
def quoteStr (s : String) : String :=
  "\"" ++ s.data.foldl (fun acc c => acc ++ escapeChar c) "" ++ "\""

/-- The bytes `json.Marshal` produces for one `URLMapping`. -/
def renderMapping (m : URLMapping) : String :=
  "\x7b\"uuid\":" ++ quoteStr m.UUID ++
    ",\"short_url\":" ++ quoteStr m.ShortURL ++
    ",\"original_url\":" ++ quoteStr m.OriginalURL ++
    ",\"user_id\":" ++ quoteStr m.UserID ++ "\x7d"

/-- The file system as seen through the two paths `saveToFile` touches:
the content at the target path and at the temporary path (if present). -/
structure FS where
  target : Option String
  tmp : Option String
deriving DecidableEq

/-- One `bufio.Writer` write of `p` given the current file content and
buffer: below the 4096-byte threshold the bytes are only buffered and
nothing reaches the file.  (Above the threshold `bufio` flushes in chunks;
the model coarsens the chunking but keeps the concatenation — exact in the
sub-threshold regime all theorems below use.) -/
def bufWrite (file buf p : String) : String × String :=
  if buf.length + p.length ≤ 4096 then (file, buf ++ p)
  else (file ++ buf ++ p, "")

/-- The successive arguments of `writer.Write(line)` /
`writer.WriteString("\n")` over the pending entries. -/
def writeOps (pending : List (String × String)) (ug : Nat → String) :
    List String :=
  (pending.enum.map (fun ip =>
    [renderMapping ⟨ug ip.1, ip.2.1, ip.2.2, "system"⟩, "\n"])).flatten

/-- Run the buffered writes; returns the final (file, buffer) pair and the
(file, buffer) pair after each individual write. -/
def runWrites (file buf : String) : List String →
    (String × String) × List (String × String)
  | [] => ((file, buf), [])
  | p :: rest =>
      let fb := bufWrite file buf p
      let r := runWrites fb.1 fb.2 rest
      (r.1, fb :: r.2)

/-- Every file-system state `saveToFile` passes through, in order:
the initial state; after `os.Create(tmpFile)`; after each buffered write;
after `os.Rename(tmpFile, b.filePath)` in the return expression; and after
the deferred `writer.Flush()`, which appends the still-buffered bytes to
the renamed inode, i.e. at the target path. -/
def saveToFileTrace (fs : FS) (pending : List (String × String))
    (ug : Nat → String) : List FS :=
  let w := runWrites "" "" (writeOps pending ug)
  [fs, { fs with tmp := some "" }] ++
    w.2.map (fun fb => { fs with tmp := some fb.1 }) ++
    [{ target := some w.1.1, tmp := none },
     { target := some (w.1.1 ++ w.1.2), tmp := none }]

/-- Result of `saveToFile`: the file system once the deferred flush and
close have run, the reset pending buffer, and the (nil) error. -/
def saveToFileRun (fs : FS) (pending : List (String × String))
    (ug : Nat → String) : FS × List (String × String) × Option String :=
  let w := runWrites "" "" (writeOps pending ug)
  ({ target := some (w.1.1 ++ w.1.2), tmp := none }, [], none)

/-- forceSave from osfile.go: under the mutex, if no URLs are pending
return a nil error at once — no file is created, written or renamed —
otherwise run `saveToFile`.  The second component lists the file-system
states the call passes through. -/
def forceSave (fs : FS) (pending : List (String × String))
    (ug : Nat → String) :
    (FS × List (String × String) × Option String) × List FS :=
  if pending.isEmpty then ((fs, pending, none), [])
  else (saveToFileRun fs pending ug, saveToFileTrace fs pending ug)

/-- C10: with an empty pending buffer `forceSave` returns a nil error,
leaves the target and the temporary path exactly as they were, touches no
file-system state at all, and leaves the pending buffer empty — so a
periodic tick with nothing accumulated never replaces an existing
snapshot. -/
theorem forceSave_empty_is_noop (fs : FS) (ug : Nat → String) :
    (forceSave fs [] ug).1.1 = fs ∧
    (forceSave fs [] ug).1.1.target = fs.target ∧
    (forceSave fs [] ug).1.1.tmp = fs.tmp ∧
    (forceSave fs [] ug).1.2.1 = [] ∧
    (forceSave fs [] ug).1.2.2 = none ∧
    (forceSave fs [] ug).2 = [] :=
  ⟨rfl, rfl, rfl, rfl, rfl, rfl⟩

/-- Demonstration state for the rename-before-flush defect: the target
holds a previous non-empty snapshot. -/
def crashDemoFS : FS := { target := some "OLD", tmp := none }

/-- The trace of `saveToFile` on one small pending entry. -/
def crashDemoTrace : List FS :=
  saveToFileTrace crashDemoFS [("s1", "https://a")] (fun _ => "u")

/-- The final file system of that same call. -/
def crashDemoFinal : FS :=
  (saveToFileRun crashDemoFS [("s1", "https://a")] (fun _ => "u")).1

/-- C9: evaluated at the failing input.  Because `defer writer.Flush()`
runs only after the `return os.Rename(...)` expression, and one small
entry stays entirely in the bufio buffer, the state right after the rename
has the target holding the empty string — neither the previous snapshot
`"OLD"` nor the complete new snapshot (which the deferred flush installs
afterwards at the same path).  An interruption at that point leaves a
truncated target. -/
theorem saveToFile_rename_precedes_flush :
    crashDemoTrace.get? 4 = some { target := some "", tmp := none } ∧
    crashDemoFinal.target ≠ some "" ∧
    (some "" : Option String) ≠ some "OLD" := by
  refine ⟨by decide, by decide, by decide⟩

end Shorty
